import Mathlib

/-
Verification of the content-hashing core of the pooch-dropbox repository.

The source file src/pooch_dropbox/_dropbox_content_hasher.py implements
DropboxContentHasher (an incremental two-level block hash) and StreamHasher
(a pass-through stream decorator that feeds every transferred byte into a
hasher).  src/pooch_dropbox/_dbx.py implements create_shared_links and
create_pooch_registry, whose credential-resolution logic is modelled here.

Modelling conventions:
- A byte is a Nat (its value is never inspected by the code under study),
  a byte string is a List Nat.
- hashlib.sha256 is an external library collaborator.  A sha256 context
  object is modelled by the exact sequence of bytes fed to it so far
  (context.update concatenates), and its digest method is an abstract
  function H : Bytes -> Bytes applied to that sequence.  All theorems are
  proved for every H, which is faithful: the code treats the hash as a
  black box.
- Python exceptions become Except String results.  In-place mutation
  becomes explicit state passing; where Python mutates an object before an
  exception propagates, the model returns the mutated state alongside the
  error.
- The while loop of DropboxContentHasher.update is translated with an
  explicit fuel argument equal to the length of the remaining data; every
  iteration of the Python loop consumes at least one byte of data whenever
  the representation invariant block_pos <= BLOCK_SIZE holds, so this fuel
  is never exhausted on any reachable state (proved below).
-/

namespace PoochDropbox

/-- A byte string: each element models one byte. -/
abbrev Bytes := List Nat

/-- BLOCK_SIZE = 4 * 1024 * 1024, from the class attribute of
DropboxContentHasher. -/
def BLOCK_SIZE : Nat := 4 * 1024 * 1024

/-- State of a DropboxContentHasher.  The two hashlib contexts are
represented by the byte sequences fed to them so far; a context that the
Python code has set to None is represented by none. -/
structure DropboxContentHasher where
  overall_hasher : Option Bytes
  block_hasher : Option Bytes
  block_pos : Nat
deriving DecidableEq

/-- The state produced by DropboxContentHasher.__init__: two fresh sha256
contexts and block_pos = 0. -/
def DropboxContentHasher.init : DropboxContentHasher :=
  { overall_hasher := some [], block_hasher := some [], block_pos := 0 }

/-- Error message raised by update after finalization (apostrophe of the
Python text omitted). -/
def updateErrMsg : String :=
  "cant use this object anymore; you already called digest()"

/-- Error message raised by _finish after finalization (apostrophe of the
Python text omitted). -/
def finishErrMsg : String :=
  "cant use this object anymore; you already called digest() or hexdigest()"

/-- The while loop of DropboxContentHasher.update.  State (ov, bl, pos)
mirrors (_overall_hasher, _block_hasher, _block_pos); data is the not yet
consumed suffix of new_data (the Python index new_data_pos is the amount
already consumed).  Each iteration first folds a completed block, then
moves min(space_in_block, data remaining) bytes into the block context.
The fuel argument bounds the number of iterations; update passes
data.length, which suffices whenever pos <= BLOCK_SIZE (proved below). -/
def updateLoop (H : Bytes → Bytes) :
    Nat → Bytes → Bytes → Nat → Bytes → Bytes × Bytes × Nat
  | _, ov, bl, pos, [] => (ov, bl, pos)
  | 0, ov, bl, pos, _ => (ov, bl, pos)
  | fuel + 1, ov, bl, pos, data =>
    let ov1 := if pos = BLOCK_SIZE then ov ++ H bl else ov
    let bl1 := if pos = BLOCK_SIZE then [] else bl
    let pos1 := if pos = BLOCK_SIZE then 0 else pos
    let space := BLOCK_SIZE - pos1
    let part := data.take space
    updateLoop H fuel ov1 (bl1 ++ part) (pos1 + part.length) (data.drop space)

/-- DropboxContentHasher.update: raises after finalization, otherwise runs
the block-splitting loop on new_data. -/
def DropboxContentHasher.update (H : Bytes → Bytes)
    (s : DropboxContentHasher) (new_data : Bytes) :
    Except String DropboxContentHasher :=
  match s.overall_hasher, s.block_hasher with
  | some ov, some bl =>
    let r := updateLoop H new_data.length ov bl s.block_pos new_data
    .ok { overall_hasher := some r.1, block_hasher := some r.2.1,
          block_pos := r.2.2 }
  | _, _ => .error updateErrMsg

/-- DropboxContentHasher._finish: folds a pending partial block into the
overall context when block_pos > 0, invalidates the object, and returns
the final overall context (the byte sequence it was fed) together with the
invalidated state. -/
def DropboxContentHasher.finish (H : Bytes → Bytes)
    (s : DropboxContentHasher) :
    Except String (Bytes × DropboxContentHasher) :=
  match s.overall_hasher, s.block_hasher with
  | some ov, some bl =>
    if s.block_pos > 0 then
      .ok (ov ++ H bl,
           { overall_hasher := none, block_hasher := none,
             block_pos := s.block_pos })
    else
      .ok (ov,
           { overall_hasher := none, block_hasher := some bl,
             block_pos := s.block_pos })
  | _, _ => .error finishErrMsg

/-- DropboxContentHasher.digest: the raw digest of the finished overall
context, with the post-finalization state. -/
def DropboxContentHasher.digest (H : Bytes → Bytes)
    (s : DropboxContentHasher) :
    Except String (Bytes × DropboxContentHasher) :=
  match s.finish H with
  | .ok (ctx, s2) => .ok (H ctx, s2)
  | .error e => .error e

/-- Lowercase hexadecimal digit character for a value below 16. -/
def hexDigitChar (n : Nat) : Char :=
  if n < 10 then Char.ofNat (48 + n) else Char.ofNat (87 + n)

/-- Lowercase hexadecimal encoding of a byte string, two digits per byte. -/
def hexEncode (bs : Bytes) : String :=
  String.mk (bs.flatMap fun b => [hexDigitChar (b / 16), hexDigitChar (b % 16)])

/-- DropboxContentHasher.hexdigest: hexadecimal form of digest. -/
def DropboxContentHasher.hexdigest (H : Bytes → Bytes)
    (s : DropboxContentHasher) :
    Except String (String × DropboxContentHasher) :=
  match s.finish H with
  | .ok (ctx, s2) => .ok (hexEncode (H ctx), s2)
  | .error e => .error e

/-- Feed a list of chunks to a hasher by successive update calls. -/
def DropboxContentHasher.runUpdates (H : Bytes → Bytes)
    (s : DropboxContentHasher) (chunks : List Bytes) :
    Except String DropboxContentHasher :=
  match chunks with
  | [] => .ok s
  | c :: cs =>
    match s.update H c with
    | .ok s2 => s2.runUpdates H cs
    | .error e => .error e

/-- The digest obtained from a fresh hasher by feeding chunks and then
calling digest once. -/
def digestOfChunks (H : Bytes → Bytes) (chunks : List Bytes) :
    Except String Bytes :=
  match DropboxContentHasher.init.runUpdates H chunks with
  | .ok s =>
    match s.digest H with
    | .ok (d, _) => .ok d
    | .error e => .error e
  | .error e => .error e

/-- Split a byte string into consecutive BLOCK_SIZE blocks; the final
block, if any, may be shorter.  This follows the reference description in
the module docstring of _dropbox_content_hasher.py. -/
def toBlocks (s : Bytes) : List Bytes :=
  if h : s = [] then []
  else s.take BLOCK_SIZE :: toBlocks (s.drop BLOCK_SIZE)
termination_by s.length
decreasing_by
  have hs : 0 < s.length := List.length_pos.mpr h
  have hB : 0 < BLOCK_SIZE := by decide
  simp only [List.length_drop]
  omega

/-- The reference two-level construction from the module docstring: hash
each BLOCK_SIZE block, concatenate the raw block digests, hash the
concatenation. -/
def dropboxReference (H : Bytes → Bytes) (s : Bytes) : Bytes :=
  H (((toBlocks s).map H).flatten)

/-- Number of block digests folded into the overall context after a total
of t bytes has been fed: the fold of a just-completed block is deferred
until more data arrives, hence the subtraction of one. -/
def foldedCount (t : Bytes) : Nat := (t.length - 1) / BLOCK_SIZE

/-- The bytes sitting in the current block context after feeding t. -/
def pendingBlock (t : Bytes) : Bytes := t.drop (foldedCount t * BLOCK_SIZE)

/-- The bytes fed to the overall context after feeding t: the digests of
the folded blocks, concatenated. -/
def foldedDigests (H : Bytes → Bytes) (t : Bytes) : Bytes :=
  ((toBlocks (t.take (foldedCount t * BLOCK_SIZE))).map H).flatten

/-- The canonical active hasher state reached from init by feeding a
total of t bytes (in any chunking). -/
def feed (H : Bytes → Bytes) (t : Bytes) : DropboxContentHasher :=
  { overall_hasher := some (foldedDigests H t),
    block_hasher := some (pendingBlock t),
    block_pos := (pendingBlock t).length }

/-- The digest value extracted by one digest call, discarding the
invalidated state. -/
def digestValue (H : Bytes → Bytes) (s : DropboxContentHasher) :
    Except String Bytes :=
  match s.digest H with
  | .ok (d, _) => .ok d
  | .error e => .error e

/-- A concrete stand-in digest function used to instantiate witness
theorems; any function of type Bytes → Bytes may play the role of the
abstract sha256 digest. -/
def hashFn0 : Bytes → Bytes := fun bs => [bs.length % 256]

/-- Model of a file-like byte stream: contents holds the bytes still to
be read, written collects bytes written, and the two switches make the
read-side or write-side primitives raise, modelling a stream that raises
on an operation. -/
structure ByteStream where
  contents : Bytes
  written : Bytes
  failRead : Bool
  failWrite : Bool
deriving DecidableEq

def ioErrMsg : String := "io error"

def unboundLocalMsg : String := "UnboundLocalError: b"

def stopIterationMsg : String := "StopIteration"

def ByteStream.read (st : ByteStream) (n : Option Nat) :
    Except String (Bytes × ByteStream) :=
  if st.failRead then .error ioErrMsg
  else match n with
    | some k => .ok (st.contents.take k, { st with contents := st.contents.drop k })
    | none => .ok (st.contents, { st with contents := [] })

/-- One line of a byte string: everything up to and including the first
newline byte (10), or the whole string if it has none. -/
def takeLine : Bytes → Bytes
  | [] => []
  | b :: bs => if b = 10 then [10] else b :: takeLine bs

/-- The remainder of a byte string after its first line. -/
def dropLine : Bytes → Bytes
  | [] => []
  | b :: bs => if b = 10 then bs else dropLine bs

/-- Split a byte string into its lines, each keeping its newline.  The
fuel argument bounds recursion; one byte at least is consumed per line,
so a fuel of the length suffices. -/
def splitLinesAux : Nat → Bytes → List Bytes
  | _, [] => []
  | 0, s => [s]
  | fuel + 1, s => takeLine s :: splitLinesAux fuel (dropLine s)

def splitLines (s : Bytes) : List Bytes := splitLinesAux s.length s

def ByteStream.readline (st : ByteStream) :
    Except String (Bytes × ByteStream) :=
  if st.failRead then .error ioErrMsg
  else .ok (takeLine st.contents, { st with contents := dropLine st.contents })

def ByteStream.next (st : ByteStream) :
    Except String (Bytes × ByteStream) :=
  if st.failRead then .error ioErrMsg
  else if st.contents = [] then .error stopIterationMsg
  else .ok (takeLine st.contents, { st with contents := dropLine st.contents })

def ByteStream.readlines (st : ByteStream) :
    Except String (List Bytes × ByteStream) :=
  if st.failRead then .error ioErrMsg
  else .ok (splitLines st.contents, { st with contents := [] })

def ByteStream.write (st : ByteStream) (b : Bytes) :
    Except String (Nat × ByteStream) :=
  if st.failWrite then .error ioErrMsg
  else .ok (b.length, { st with written := st.written ++ b })

/-- StreamHasher state: the wrapped stream and the associated hasher.
Python mutates both in place; every operation therefore returns the
result (or the propagated exception) together with the state as mutated
up to the point the exception was raised. -/
structure StreamHasher where
  f : ByteStream
  hasher : DropboxContentHasher
deriving DecidableEq

/-- StreamHasher.read: read from the wrapped stream first, then feed the
returned bytes to the hasher, then hand them to the caller. -/
def StreamHasher.read (H : Bytes → Bytes) (sh : StreamHasher) (n : Option Nat) :
    Except String Bytes × StreamHasher :=
  match sh.f.read n with
  | .error e => (.error e, sh)
  | .ok (b, f2) =>
    let sh1 := { sh with f := f2 }
    match sh1.hasher.update H b with
    | .error e => (.error e, sh1)
    | .ok h2 => (.ok b, { sh1 with hasher := h2 })

/-- StreamHasher.write: the source feeds b to the hasher BEFORE
delegating to the wrapped stream. -/
def StreamHasher.write (H : Bytes → Bytes) (sh : StreamHasher) (b : Bytes) :
    Except String Nat × StreamHasher :=
  match sh.hasher.update H b with
  | .error e => (.error e, sh)
  | .ok h2 =>
    let sh1 := { sh with hasher := h2 }
    match sh1.f.write b with
    | .error e => (.error e, sh1)
    | .ok (m, f2) => (.ok m, { sh1 with f := f2 })

def StreamHasher.readline (H : Bytes → Bytes) (sh : StreamHasher) :
    Except String Bytes × StreamHasher :=
  match sh.f.readline with
  | .error e => (.error e, sh)
  | .ok (b, f2) =>
    let sh1 := { sh with f := f2 }
    match sh1.hasher.update H b with
    | .error e => (.error e, sh1)
    | .ok h2 => (.ok b, { sh1 with hasher := h2 })

def StreamHasher.next (H : Bytes → Bytes) (sh : StreamHasher) :
    Except String Bytes × StreamHasher :=
  match sh.f.next with
  | .error e => (.error e, sh)
  | .ok (b, f2) =>
    let sh1 := { sh with f := f2 }
    match sh1.hasher.update H b with
    | .error e => (.error e, sh1)
    | .ok h2 => (.ok b, { sh1 with hasher := h2 })

/-- The for loop of StreamHasher.readlines followed by the return: every
line is fed to the hasher, and the loop variable b is returned, which
after the loop still holds the LAST line (the source returns b, not bs);
with no lines at all, b was never bound and Python raises
UnboundLocalError. -/
def readlinesLoop (H : Bytes → Bytes) (sh : StreamHasher) :
    List Bytes → Except String Bytes × StreamHasher
  | [] => (.error unboundLocalMsg, sh)
  | b :: rest =>
    match sh.hasher.update H b with
    | .error e => (.error e, sh)
    | .ok h2 =>
      match rest with
      | [] => (.ok b, { sh with hasher := h2 })
      | _ :: _ => readlinesLoop H { sh with hasher := h2 } rest

def StreamHasher.readlines (H : Bytes → Bytes) (sh : StreamHasher) :
    Except String Bytes × StreamHasher :=
  match sh.f.readlines with
  | .error e => (.error e, sh)
  | .ok (bs, f2) => readlinesLoop H { sh with f := f2 } bs

/-- Drive a StreamHasher by a sequence of read calls (each with an
optional size argument), stopping at the first propagated exception. -/
def StreamHasher.runReads (H : Bytes → Bytes) (sh : StreamHasher) :
    List (Option Nat) → Except String StreamHasher
  | [] => .ok sh
  | n :: rest =>
    match sh.read H n with
    | (.ok _, sh2) => sh2.runReads H rest
    | (.error e, _) => .error e

/-- The bytes a read call with the given size argument returns from a
stream whose remaining contents are s. -/
def readBytes : Option Nat → Bytes → Bytes
  | some k, s => s.take k
  | none, s => s

/-- The remaining contents after that read call. -/
def readRest : Option Nat → Bytes → Bytes
  | some k, s => s.drop k
  | none, _ => []

/-- Truthiness of an optional string as Python sees it: None and the
empty string are falsy. -/
def isFalsy : Option String → Bool
  | none => true
  | some t => t == ""

def tokenErrMsg : String :=
  "Please provide a api_token or set the DROPBOX_API_TOKEN environment variable"

/-- The credential-resolution prefix of create_shared_links: a falsy
api_token argument is replaced by the DROPBOX_API_TOKEN environment
value; if the result is still falsy a ValueError is raised. -/
def resolveApiToken (api_token envToken : Option String) : Except String String :=
  let tok := if isFalsy api_token then envToken else api_token
  if isFalsy tok then .error tokenErrMsg
  else .ok (tok.getD "")

/-- Model of create_shared_links: the credential check runs first; the
network interaction that follows (authentication, folder listing,
shared-link creation, and the hashing done downstream) is an opaque
function of the resolved token, reached only when the check passes. -/
def create_shared_links_model (api_token envToken : Option String)
    (net : String → List String) : Except String (List String) :=
  match resolveApiToken api_token envToken with
  | .error e => .error e
  | .ok tok => .ok (net tok)

/-- Model of the call made by create_pooch_registry, which passes no
api_token to create_shared_links: the environment variable alone
decides. -/
def create_pooch_registry_model (envToken : Option String)
    (net : String → List String) : Except String (List String) :=
  create_shared_links_model none envToken net

/-- Concrete opaque network functions for witnesses. -/
def netFn0 : String → List String := fun _ => []

def netFn1 : String → List String := fun t => [t]

theorem BLOCK_SIZE_pos : 0 < BLOCK_SIZE := by decide

theorem toBlocks_nil : toBlocks [] = [] := by
  rw [toBlocks]
  simp

theorem toBlocks_block_cons (b x : Bytes) (hb : b.length = BLOCK_SIZE) :
    toBlocks (b ++ x) = b :: toBlocks x := by
  have hbne : b ≠ [] := List.length_pos.mp (by rw [hb]; exact BLOCK_SIZE_pos)
  have h1 : b ++ x ≠ [] := by simp [hbne]
  rw [toBlocks, dif_neg h1, ← hb, List.take_left, List.drop_left]

theorem toBlocks_small (p : Bytes) (hne : p ≠ []) (hle : p.length ≤ BLOCK_SIZE) :
    toBlocks p = [p] := by
  rw [toBlocks, dif_neg hne, List.take_of_length_le hle, List.drop_of_length_le hle,
    toBlocks_nil]

theorem toBlocks_mul_append (k : Nat) (q x : Bytes)
    (hq : q.length = k * BLOCK_SIZE) :
    toBlocks (q ++ x) = toBlocks q ++ toBlocks x := by
  induction k generalizing q with
  | zero =>
    have : q = [] := List.length_eq_zero.mp (by rw [hq, Nat.zero_mul])
    subst this
    simp [toBlocks_nil]
  | succ k ih =>
    have hB := BLOCK_SIZE_pos
    have hlen : q.length = k * BLOCK_SIZE + BLOCK_SIZE := by
      rw [hq, Nat.succ_mul]
    have hb : (q.take BLOCK_SIZE).length = BLOCK_SIZE := by
      simp [List.length_take]
      omega
    have hq' : (q.drop BLOCK_SIZE).length = k * BLOCK_SIZE := by
      simp [List.length_drop]
      omega
    have hbq : q = q.take BLOCK_SIZE ++ q.drop BLOCK_SIZE :=
      (List.take_append_drop _ q).symm
    calc toBlocks (q ++ x)
        = toBlocks (q.take BLOCK_SIZE ++ (q.drop BLOCK_SIZE ++ x)) := by
          rw [← List.append_assoc, ← hbq]
      _ = q.take BLOCK_SIZE :: toBlocks (q.drop BLOCK_SIZE ++ x) :=
          toBlocks_block_cons _ _ hb
      _ = q.take BLOCK_SIZE :: (toBlocks (q.drop BLOCK_SIZE) ++ toBlocks x) := by
          rw [ih _ hq']
      _ = toBlocks q ++ toBlocks x := by
          rw [hbq, toBlocks_block_cons _ _ hb]
          simp

theorem foldedCount_mul_append (k : Nat) (q x : Bytes)
    (hq : q.length = k * BLOCK_SIZE) (hx : x ≠ []) :
    foldedCount (q ++ x) = k + foldedCount x := by
  have hB := BLOCK_SIZE_pos
  have hx1 : 1 ≤ x.length := List.length_pos.mpr hx
  unfold foldedCount
  rw [List.length_append, hq, Nat.add_sub_assoc hx1, Nat.mul_comm k BLOCK_SIZE,
    Nat.mul_add_div hB]

theorem pendingBlock_mul_append (k : Nat) (q x : Bytes)
    (hq : q.length = k * BLOCK_SIZE) (hx : x ≠ []) :
    pendingBlock (q ++ x) = pendingBlock x := by
  unfold pendingBlock
  rw [foldedCount_mul_append k q x hq hx, Nat.add_mul,
    List.drop_append_eq_append_drop,
    List.drop_of_length_le (by rw [hq]; exact Nat.le_add_right _ _), hq,
    Nat.add_sub_cancel_left, List.nil_append]

theorem foldedDigests_mul_append (H : Bytes → Bytes) (k : Nat) (q x : Bytes)
    (hq : q.length = k * BLOCK_SIZE) (hx : x ≠ []) :
    foldedDigests H (q ++ x) = ((toBlocks q).map H).flatten ++ foldedDigests H x := by
  unfold foldedDigests
  rw [foldedCount_mul_append k q x hq hx, Nat.add_mul,
    List.take_append_eq_append_take,
    List.take_of_length_le (by rw [hq]; exact Nat.le_add_right _ _), hq,
    Nat.add_sub_cancel_left, toBlocks_mul_append k q _ hq]
  simp

theorem foldedCount_small (t : Bytes) (h : t.length ≤ BLOCK_SIZE) :
    foldedCount t = 0 := by
  unfold foldedCount
  exact Nat.div_eq_of_lt (by have := BLOCK_SIZE_pos; omega)

theorem pendingBlock_small (t : Bytes) (h : t.length ≤ BLOCK_SIZE) :
    pendingBlock t = t := by
  unfold pendingBlock
  rw [foldedCount_small t h]
  simp

theorem foldedDigests_small (H : Bytes → Bytes) (t : Bytes)
    (h : t.length ≤ BLOCK_SIZE) : foldedDigests H t = [] := by
  unfold foldedDigests
  rw [foldedCount_small t h]
  simp [toBlocks_nil]

theorem pendingBlock_length (t : Bytes) :
    (pendingBlock t).length = t.length - foldedCount t * BLOCK_SIZE := by
  unfold pendingBlock
  simp [List.length_drop]

theorem pendingBlock_length_le (t : Bytes) :
    (pendingBlock t).length ≤ BLOCK_SIZE := by
  rw [pendingBlock_length]
  unfold foldedCount
  have h1 := Nat.div_add_mod (t.length - 1) BLOCK_SIZE
  have h2 := Nat.mod_lt (t.length - 1) BLOCK_SIZE_pos
  set d := (t.length - 1) / BLOCK_SIZE with hd
  set r := (t.length - 1) % BLOCK_SIZE with hr
  simp only [BLOCK_SIZE] at h1 h2 ⊢
  omega

theorem pendingBlock_ne_nil (t : Bytes) (h : t ≠ []) : pendingBlock t ≠ [] := by
  have h1 : 0 < t.length := List.length_pos.mpr h
  have h3 : foldedCount t * BLOCK_SIZE ≤ t.length - 1 :=
    Nat.div_mul_le_self _ _
  apply List.length_pos.mp
  rw [pendingBlock_length]
  omega

theorem feed_nil (H : Bytes → Bytes) : feed H [] = DropboxContentHasher.init := by
  unfold feed DropboxContentHasher.init
  rw [foldedDigests_small H [] (by simp), pendingBlock_small [] (by simp)]
  simp

theorem toBlocks_of_length_eq (b : Bytes) (hb : b.length = BLOCK_SIZE) :
    toBlocks b = [b] :=
  toBlocks_small b (List.length_pos.mp (by rw [hb]; exact BLOCK_SIZE_pos))
    (le_of_eq hb)

theorem foldedDigests_block_append (H : Bytes → Bytes) (b x : Bytes)
    (hb : b.length = BLOCK_SIZE) (hx : x ≠ []) :
    foldedDigests H (b ++ x) = H b ++ foldedDigests H x := by
  rw [foldedDigests_mul_append H 1 b x (by rw [hb, one_mul]) hx,
    toBlocks_of_length_eq b hb]
  simp

theorem pendingBlock_block_append (b x : Bytes)
    (hb : b.length = BLOCK_SIZE) (hx : x ≠ []) :
    pendingBlock (b ++ x) = pendingBlock x :=
  pendingBlock_mul_append 1 b x (by rw [hb, one_mul]) hx

theorem updateLoop_cons (H : Bytes → Bytes) (fuel : Nat) (ov bl : Bytes)
    (pos : Nat) (d : Nat) (ds : Bytes) :
    updateLoop H (fuel + 1) ov bl pos (d :: ds) =
      (let ov1 := if pos = BLOCK_SIZE then ov ++ H bl else ov
       let bl1 := if pos = BLOCK_SIZE then [] else bl
       let pos1 := if pos = BLOCK_SIZE then 0 else pos
       let space := BLOCK_SIZE - pos1
       let part := (d :: ds).take space
       updateLoop H fuel ov1 (bl1 ++ part) (pos1 + part.length)
         ((d :: ds).drop space)) := rfl

/-- Characterization of the update loop on states satisfying the
representation invariant block_pos = length of the block context and
block_pos at most BLOCK_SIZE: the loop appends to the overall context the
digests of the newly completed blocks of bl ++ data, and leaves the
pending remainder in the block context. -/
theorem updateLoop_eq (H : Bytes → Bytes) :
    ∀ (fuel : Nat) (data : Bytes), data.length ≤ fuel →
    ∀ (ov bl : Bytes), bl.length ≤ BLOCK_SIZE →
    updateLoop H fuel ov bl bl.length data =
      (ov ++ foldedDigests H (bl ++ data), pendingBlock (bl ++ data),
       (pendingBlock (bl ++ data)).length) := by
  intro fuel
  induction fuel with
  | zero =>
    intro data hlen ov bl hbl
    have hdata : data = [] := List.length_eq_zero.mp (Nat.le_zero.mp hlen)
    subst hdata
    simp [updateLoop, foldedDigests_small H bl hbl, pendingBlock_small bl hbl]
  | succ fuel ih =>
    intro data hlen ov bl hbl
    match data with
    | [] =>
      simp [updateLoop, foldedDigests_small H bl hbl, pendingBlock_small bl hbl]
    | d :: ds =>
      have hB := BLOCK_SIZE_pos
      have hdne : (d :: ds) ≠ [] := by simp
      rw [updateLoop_cons]
      by_cases hb : bl.length = BLOCK_SIZE
      · simp only [if_pos hb, List.nil_append, Nat.sub_zero, Nat.zero_add]
        have hlen2 : ((d :: ds).drop BLOCK_SIZE).length ≤ fuel := by
          simp only [List.length_drop]
          have := hlen
          simp only [List.length_cons] at this
          omega
        have hple : ((d :: ds).take BLOCK_SIZE).length ≤ BLOCK_SIZE := by
          simp [List.length_take]
        rw [ih _ hlen2 _ _ hple, List.take_append_drop,
          foldedDigests_block_append H bl (d :: ds) hb hdne,
          pendingBlock_block_append bl (d :: ds) hb hdne,
          List.append_assoc]
      · simp only [if_neg hb]
        have hblt : bl.length < BLOCK_SIZE := lt_of_le_of_ne hbl hb
        have hlen2 : ((d :: ds).drop (BLOCK_SIZE - bl.length)).length ≤ fuel := by
          simp only [List.length_drop]
          have := hlen
          simp only [List.length_cons] at this
          omega
        have hple : (bl ++ (d :: ds).take (BLOCK_SIZE - bl.length)).length
            ≤ BLOCK_SIZE := by
          simp only [List.length_append, List.length_take]
          omega
        have harg : bl.length + ((d :: ds).take (BLOCK_SIZE - bl.length)).length
            = (bl ++ (d :: ds).take (BLOCK_SIZE - bl.length)).length := by
          simp [List.length_append]
        rw [harg, ih _ hlen2 _ _ hple, List.append_assoc,
          List.take_append_drop]

theorem take_foldedCount_length (t : Bytes) :
    (t.take (foldedCount t * BLOCK_SIZE)).length = foldedCount t * BLOCK_SIZE := by
  have h1 : foldedCount t * BLOCK_SIZE ≤ t.length := by
    have h3 : foldedCount t * BLOCK_SIZE ≤ t.length - 1 :=
      Nat.div_mul_le_self _ _
    omega
  simp [List.length_take]
  omega

theorem take_append_pendingBlock (t : Bytes) :
    t.take (foldedCount t * BLOCK_SIZE) ++ pendingBlock t = t :=
  List.take_append_drop _ t

theorem pendingBlock_pending_append (t d : Bytes) :
    pendingBlock (pendingBlock t ++ d) = pendingBlock (t ++ d) := by
  rcases eq_or_ne t [] with h | h
  · subst h
    rw [pendingBlock_small [] (by simp)]
  · have hx : pendingBlock t ++ d ≠ [] := by
      simp [pendingBlock_ne_nil t h]
    conv_rhs => rw [← take_append_pendingBlock t, List.append_assoc]
    rw [pendingBlock_mul_append (foldedCount t) _ _ (take_foldedCount_length t) hx]

theorem foldedDigests_pending_append (H : Bytes → Bytes) (t d : Bytes) :
    foldedDigests H t ++ foldedDigests H (pendingBlock t ++ d)
      = foldedDigests H (t ++ d) := by
  rcases eq_or_ne t [] with h | h
  · subst h
    rw [pendingBlock_small [] (by simp), foldedDigests_small H [] (by simp)]
    simp
  · have hx : pendingBlock t ++ d ≠ [] := by
      simp [pendingBlock_ne_nil t h]
    conv_rhs => rw [← take_append_pendingBlock t, List.append_assoc]
    rw [foldedDigests_mul_append H (foldedCount t) _ _ (take_foldedCount_length t) hx]
    rfl

/-- Computation rule for update on a non-finalized state. -/
theorem update_active (H : Bytes → Bytes) (ov bl : Bytes) (pos : Nat) (d : Bytes) :
    DropboxContentHasher.update H ⟨some ov, some bl, pos⟩ d =
      .ok { overall_hasher := some (updateLoop H d.length ov bl pos d).1,
            block_hasher := some (updateLoop H d.length ov bl pos d).2.1,
            block_pos := (updateLoop H d.length ov bl pos d).2.2 } := rfl

/-- Feeding data to the canonical state for t yields the canonical state
for t ++ data; update never fails on an active state. -/
theorem update_feed (H : Bytes → Bytes) (t d : Bytes) :
    (feed H t).update H d = .ok (feed H (t ++ d)) := by
  rw [show feed H t = (⟨some (foldedDigests H t), some (pendingBlock t),
        (pendingBlock t).length⟩ : DropboxContentHasher) from rfl,
    update_active,
    updateLoop_eq H d.length d (le_refl _) _ _ (pendingBlock_length_le t)]
  rw [foldedDigests_pending_append H t d, pendingBlock_pending_append t d]
  rfl

theorem runUpdates_feed (H : Bytes → Bytes) (chunks : List Bytes) (t : Bytes) :
    (feed H t).runUpdates H chunks = .ok (feed H (t ++ chunks.flatten)) := by
  induction chunks generalizing t with
  | nil => simp [DropboxContentHasher.runUpdates]
  | cons c cs ih =>
    simp only [DropboxContentHasher.runUpdates, update_feed H t c, ih (t ++ c),
      List.flatten_cons, List.append_assoc]

theorem flatten_map_toBlocks (H : Bytes → Bytes) (t : Bytes) (h : t ≠ []) :
    ((toBlocks t).map H).flatten = foldedDigests H t ++ H (pendingBlock t) := by
  conv_lhs => rw [← take_append_pendingBlock t]
  rw [toBlocks_mul_append (foldedCount t) _ _ (take_foldedCount_length t),
    toBlocks_small (pendingBlock t) (pendingBlock_ne_nil t h)
      (pendingBlock_length_le t)]
  simp [foldedDigests]

/-- Finalizing the canonical state for t produces the reference two-level
digest of t. -/
theorem digestValue_feed (H : Bytes → Bytes) (t : Bytes) :
    digestValue H (feed H t) = .ok (dropboxReference H t) := by
  rcases eq_or_ne t [] with h | h
  · subst h
    rw [feed_nil]
    show Except.ok _ = _
    rw [dropboxReference, toBlocks_nil]
    simp
  · have hpos : 0 < (pendingBlock t).length :=
      List.length_pos.mpr (pendingBlock_ne_nil t h)
    show (match (feed H t).digest H with
      | .ok (d, _) => Except.ok d
      | .error e => Except.error e) = _
    rw [show (feed H t).digest H =
        (match (feed H t).finish H with
          | .ok (ctx, s2) => Except.ok (H ctx, s2)
          | .error e => Except.error e) from rfl]
    rw [show (feed H t).finish H =
        (if (pendingBlock t).length > 0 then
          Except.ok (foldedDigests H t ++ H (pendingBlock t),
            ({ overall_hasher := none, block_hasher := none,
               block_pos := (pendingBlock t).length } : DropboxContentHasher))
        else
          Except.ok (foldedDigests H t,
            ({ overall_hasher := none, block_hasher := some (pendingBlock t),
               block_pos := (pendingBlock t).length } : DropboxContentHasher)))
      from rfl]
    rw [if_pos hpos]
    show Except.ok (H (foldedDigests H t ++ H (pendingBlock t))) = _
    rw [dropboxReference, flatten_map_toBlocks H t h]

/-- Feeding any chunk sequence to a fresh hasher and finalizing yields the
reference two-level digest of the concatenation. -/
theorem digestOfChunks_eq (H : Bytes → Bytes) (chunks : List Bytes) :
    digestOfChunks H chunks = .ok (dropboxReference H chunks.flatten) := by
  unfold digestOfChunks
  have h1 : DropboxContentHasher.init.runUpdates H chunks
      = .ok (feed H chunks.flatten) := by
    rw [← feed_nil H, runUpdates_feed H chunks []]
    simp
  simp only [h1]
  exact digestValue_feed H chunks.flatten

/-- Claim C1: for every byte string fed to a fresh DropboxContentHasher
via any sequence of update calls followed by one digest call, the digest
equals the reference two-level construction (block digests of consecutive
BLOCK_SIZE blocks, concatenated and re-hashed); in particular the empty
string yields the digest of the empty string, and a string of
BLOCK_SIZE + 1 bytes yields H (H (first BLOCK_SIZE bytes) ++ H (last
byte)). -/
theorem claim_C1 :
    (∀ (H : Bytes → Bytes) (chunks : List Bytes),
      digestOfChunks H chunks = .ok (dropboxReference H chunks.flatten))
    ∧ (∀ H : Bytes → Bytes, digestOfChunks H [] = .ok (H []))
    ∧ (∀ (H : Bytes → Bytes) (s : Bytes), s.length = BLOCK_SIZE + 1 →
      digestOfChunks H [s]
        = .ok (H (H (s.take BLOCK_SIZE) ++ H (s.drop BLOCK_SIZE)))) := by
  refine ⟨fun H chunks => digestOfChunks_eq H chunks, fun H => ?_, fun H s hs => ?_⟩
  · rw [digestOfChunks_eq]
    simp [dropboxReference, toBlocks_nil]
  · rw [digestOfChunks_eq]
    have hne : s ≠ [] := by
      intro h
      rw [h] at hs
      simp at hs
    have hd : s = s.take BLOCK_SIZE ++ s.drop BLOCK_SIZE :=
      (List.take_append_drop _ s).symm
    have htake : (s.take BLOCK_SIZE).length = BLOCK_SIZE := by
      simp [List.length_take]
      omega
    have hdrop : (s.drop BLOCK_SIZE).length = 1 := by
      simp [List.length_drop]
      omega
    have hdne : s.drop BLOCK_SIZE ≠ [] :=
      List.length_pos.mp (by rw [hdrop]; exact Nat.one_pos)
    rw [show ([s] : List Bytes).flatten = s by simp, dropboxReference]
    conv_lhs => rw [hd]
    rw [toBlocks_block_cons _ _ htake,
      toBlocks_small _ hdne (by rw [hdrop]; exact BLOCK_SIZE_pos)]
    simp

/-- Witness for claim C1 at a concrete input of BLOCK_SIZE + 1 bytes. -/
theorem claim_C1_witness :
    (List.replicate (BLOCK_SIZE + 1) 0).length = BLOCK_SIZE + 1
    ∧ digestOfChunks hashFn0 [List.replicate (BLOCK_SIZE + 1) 0]
      = .ok (hashFn0 (hashFn0 ((List.replicate (BLOCK_SIZE + 1) 0).take BLOCK_SIZE)
          ++ hashFn0 ((List.replicate (BLOCK_SIZE + 1) 0).drop BLOCK_SIZE))) :=
  ⟨by simp, claim_C1.2.2 hashFn0 _ (by simp)⟩

/-- Claim C2: hashing a string in one update call and hashing it split
into arbitrary chunks yield identical final digests. -/
theorem claim_C2 (H : Bytes → Bytes) (s : Bytes) (chunks : List Bytes)
    (h : chunks.flatten = s) :
    digestOfChunks H chunks = digestOfChunks H [s] := by
  rw [digestOfChunks_eq, digestOfChunks_eq]
  simp [h]

/-- Witness for claim C2 at a concrete chunking. -/
theorem claim_C2_witness :
    ([[1, 2], [3]] : List Bytes).flatten = [1, 2, 3]
    ∧ digestOfChunks hashFn0 [[1, 2], [3]] = digestOfChunks hashFn0 [[1, 2, 3]] :=
  ⟨by decide, claim_C2 hashFn0 [1, 2, 3] [[1, 2], [3]] (by decide)⟩

theorem feed_block_pos (H : Bytes → Bytes) (t : Bytes) :
    (feed H t).block_pos = (pendingBlock t).length := rfl

theorem feed_overall (H : Bytes → Bytes) (t : Bytes) :
    (feed H t).overall_hasher = some (foldedDigests H t) := rfl

theorem feed_block (H : Bytes → Bytes) (t : Bytes) :
    (feed H t).block_hasher = some (pendingBlock t) := rfl

/-- Counterexample to claim C3: after one update call of exactly
BLOCK_SIZE bytes on a fresh hasher, block_pos equals BLOCK_SIZE (not 0),
and the overall context is still empty (the completed block digest has
not been folded in yet): the fold is deferred. -/
theorem claim_C3_counterexample :
    DropboxContentHasher.init.update hashFn0 (List.replicate BLOCK_SIZE 0)
      = .ok (feed hashFn0 (List.replicate BLOCK_SIZE 0))
    ∧ (feed hashFn0 (List.replicate BLOCK_SIZE 0)).block_pos = BLOCK_SIZE
    ∧ BLOCK_SIZE ≠ 0
    ∧ (feed hashFn0 (List.replicate BLOCK_SIZE 0)).overall_hasher = some [] := by
  have hlen : (List.replicate BLOCK_SIZE (0 : Nat)).length = BLOCK_SIZE := by simp
  refine ⟨?_, ?_, Nat.pos_iff_ne_zero.mp BLOCK_SIZE_pos, ?_⟩
  · rw [← feed_nil hashFn0, update_feed hashFn0 [] _, List.nil_append]
  · rw [feed_block_pos, pendingBlock_small _ (le_of_eq hlen), hlen]
  · rw [feed_overall, foldedDigests_small hashFn0 _ (le_of_eq hlen)]

/-- Claim C3 amended: after an update call that brings the running count
to exactly BLOCK_SIZE, the fold is deferred: block_pos equals BLOCK_SIZE,
the full block is still pending in the block context, and the overall
context is unchanged; finalizing at that exact point folds exactly that
one block, yielding H (H s). -/
theorem claim_C3_amended (H : Bytes → Bytes) (s : Bytes)
    (h : s.length = BLOCK_SIZE) :
    DropboxContentHasher.init.update H s
      = .ok { overall_hasher := some [], block_hasher := some s,
              block_pos := BLOCK_SIZE }
    ∧ digestOfChunks H [s] = .ok (H (H s)) := by
  constructor
  · rw [← feed_nil H, update_feed H [] s, List.nil_append,
      show feed H s = ⟨some (foldedDigests H s), some (pendingBlock s),
        (pendingBlock s).length⟩ from rfl,
      foldedDigests_small H s (le_of_eq h), pendingBlock_small s (le_of_eq h), h]
  · rw [digestOfChunks_eq, show ([s] : List Bytes).flatten = s by simp,
      dropboxReference, toBlocks_of_length_eq s h]
    simp

/-- Witness for the amended claim C3 at a concrete full block. -/
theorem claim_C3_amended_witness :
    (List.replicate BLOCK_SIZE (0 : Nat)).length = BLOCK_SIZE
    ∧ (DropboxContentHasher.init.update hashFn0 (List.replicate BLOCK_SIZE 0)
        = .ok { overall_hasher := some [],
                block_hasher := some (List.replicate BLOCK_SIZE 0),
                block_pos := BLOCK_SIZE }
      ∧ digestOfChunks hashFn0 [List.replicate BLOCK_SIZE 0]
        = .ok (hashFn0 (hashFn0 (List.replicate BLOCK_SIZE 0)))) :=
  ⟨by simp, claim_C3_amended hashFn0 _ (by simp)⟩

theorem update_finalized (H : Bytes → Bytes) (s : DropboxContentHasher)
    (h : s.overall_hasher = none) (d : Bytes) :
    s.update H d = .error updateErrMsg := by
  cases s with
  | mk ov bl pos =>
    cases ov with
    | none => cases bl <;> rfl
    | some o => simp at h

theorem finish_finalized (H : Bytes → Bytes) (s : DropboxContentHasher)
    (h : s.overall_hasher = none) :
    s.finish H = .error finishErrMsg := by
  cases s with
  | mk ov bl pos =>
    cases ov with
    | none => cases bl <;> rfl
    | some o => simp at h

theorem digest_finalized (H : Bytes → Bytes) (s : DropboxContentHasher)
    (h : s.overall_hasher = none) :
    s.digest H = .error finishErrMsg := by
  unfold DropboxContentHasher.digest
  rw [finish_finalized H s h]

theorem hexdigest_finalized (H : Bytes → Bytes) (s : DropboxContentHasher)
    (h : s.overall_hasher = none) :
    s.hexdigest H = .error finishErrMsg := by
  unfold DropboxContentHasher.hexdigest
  rw [finish_finalized H s h]

theorem finish_ok_overall_none (H : Bytes → Bytes) (s : DropboxContentHasher)
    (ctx : Bytes) (s1 : DropboxContentHasher)
    (h : s.finish H = .ok (ctx, s1)) : s1.overall_hasher = none := by
  cases s with
  | mk ov bl pos =>
    cases ov with
    | none =>
      cases bl <;> simp [DropboxContentHasher.finish] at h
    | some o =>
      cases bl with
      | none => simp [DropboxContentHasher.finish] at h
      | some b =>
        unfold DropboxContentHasher.finish at h
        by_cases hp : pos > 0 <;>
          simp only [hp, if_pos, if_neg, not_false_iff] at h <;>
          [skip; skip] <;>
          · obtain ⟨-, h2⟩ := Except.ok.inj h |> Prod.mk.inj
            rw [← h2]

theorem digest_ok_overall_none (H : Bytes → Bytes) (s : DropboxContentHasher)
    (d : Bytes) (s1 : DropboxContentHasher)
    (h : s.digest H = .ok (d, s1)) : s1.overall_hasher = none := by
  unfold DropboxContentHasher.digest at h
  cases hf : s.finish H with
  | error e => rw [hf] at h; simp at h
  | ok p =>
    rw [hf] at h
    obtain ⟨c, s2⟩ := p
    obtain ⟨-, h2⟩ := Except.ok.inj h |> Prod.mk.inj
    rw [← h2]
    exact finish_ok_overall_none H s c s2 hf

theorem hexdigest_ok_overall_none (H : Bytes → Bytes) (s : DropboxContentHasher)
    (x : String) (s1 : DropboxContentHasher)
    (h : s.hexdigest H = .ok (x, s1)) : s1.overall_hasher = none := by
  unfold DropboxContentHasher.hexdigest at h
  cases hf : s.finish H with
  | error e => rw [hf] at h; simp at h
  | ok p =>
    rw [hf] at h
    obtain ⟨c, s2⟩ := p
    obtain ⟨-, h2⟩ := Except.ok.inj h |> Prod.mk.inj
    rw [← h2]
    exact finish_ok_overall_none H s c s2 hf

/-- Claim C4: exactly one finalizing call is permitted: after a first
successful digest or hexdigest, every subsequent digest, hexdigest or
update call fails with the already-finalized error. -/
theorem claim_C4 (H : Bytes → Bytes) (s : DropboxContentHasher) :
    (∀ d s1, s.digest H = .ok (d, s1) →
      (∀ data, s1.update H data = .error updateErrMsg)
      ∧ s1.digest H = .error finishErrMsg
      ∧ s1.hexdigest H = .error finishErrMsg)
    ∧ (∀ x s1, s.hexdigest H = .ok (x, s1) →
      (∀ data, s1.update H data = .error updateErrMsg)
      ∧ s1.digest H = .error finishErrMsg
      ∧ s1.hexdigest H = .error finishErrMsg) := by
  constructor
  · intro d s1 h
    have hn := digest_ok_overall_none H s d s1 h
    exact ⟨fun data => update_finalized H s1 hn data,
      digest_finalized H s1 hn, hexdigest_finalized H s1 hn⟩
  · intro x s1 h
    have hn := hexdigest_ok_overall_none H s x s1 h
    exact ⟨fun data => update_finalized H s1 hn data,
      digest_finalized H s1 hn, hexdigest_finalized H s1 hn⟩

/-- Witness for claim C4: a fresh hasher finalized once rejects update,
digest and hexdigest afterwards. -/
theorem claim_C4_witness :
    DropboxContentHasher.init.digest hashFn0
      = .ok ([0], { overall_hasher := none, block_hasher := some [],
                    block_pos := 0 })
    ∧ ({ overall_hasher := none, block_hasher := some [], block_pos := 0 }
        : DropboxContentHasher).update hashFn0 [5] = .error updateErrMsg
    ∧ ({ overall_hasher := none, block_hasher := some [], block_pos := 0 }
        : DropboxContentHasher).digest hashFn0 = .error finishErrMsg
    ∧ ({ overall_hasher := none, block_hasher := some [], block_pos := 0 }
        : DropboxContentHasher).hexdigest hashFn0 = .error finishErrMsg :=
  have h1 : DropboxContentHasher.init.digest hashFn0
      = .ok ([0], { overall_hasher := none, block_hasher := some [],
                    block_pos := 0 }) := rfl
  have h2 := (claim_C4 hashFn0 DropboxContentHasher.init).1 [0] _ h1
  ⟨h1, h2.1 [5], h2.2.1, h2.2.2⟩

/-- Claim C8: every state reachable from construction by update calls has
block_pos at most BLOCK_SIZE, and update preserves this bound. -/
theorem claim_C8 (H : Bytes → Bytes) (chunks : List Bytes)
    (s : DropboxContentHasher)
    (h : DropboxContentHasher.init.runUpdates H chunks = .ok s) :
    s.block_pos ≤ BLOCK_SIZE
    ∧ ∀ (d : Bytes) (s2 : DropboxContentHasher), s.update H d = .ok s2 →
        s2.block_pos ≤ BLOCK_SIZE := by
  have hrun : DropboxContentHasher.init.runUpdates H chunks
      = .ok (feed H chunks.flatten) := by
    rw [← feed_nil H, runUpdates_feed]
    simp
  rw [hrun] at h
  obtain rfl : feed H chunks.flatten = s := Except.ok.inj h
  constructor
  · exact pendingBlock_length_le _
  · intro d s2 h2
    rw [update_feed H _ d] at h2
    obtain rfl : feed H (chunks.flatten ++ d) = s2 := Except.ok.inj h2
    exact pendingBlock_length_le _

/-- Witness for claim C8 at a concrete reachable state. -/
theorem claim_C8_witness :
    DropboxContentHasher.init.runUpdates hashFn0 [[1]]
      = .ok ⟨some [], some [1], 1⟩
    ∧ (⟨some [], some [1], 1⟩ : DropboxContentHasher).block_pos ≤ BLOCK_SIZE
    ∧ ((⟨some [], some [1], 1⟩ : DropboxContentHasher).update hashFn0 [2]
        = .ok ⟨some [], some [1, 2], 2⟩
       ∧ (⟨some [], some [1, 2], 2⟩ : DropboxContentHasher).block_pos
          ≤ BLOCK_SIZE) :=
  have h1 : DropboxContentHasher.init.runUpdates hashFn0 [[1]]
      = .ok ⟨some [], some [1], 1⟩ := rfl
  have h2 : (⟨some [], some [1], 1⟩ : DropboxContentHasher).update hashFn0 [2]
      = .ok ⟨some [], some [1, 2], 2⟩ := rfl
  have hc := claim_C8 hashFn0 [[1]] _ h1
  ⟨h1, hc.1, h2, hc.2 [2] _ h2⟩

/-- Claim C10: update with the empty byte string on any non-finalized
state succeeds and leaves the state (both contexts and block_pos) exactly
unchanged; hence it cannot affect any subsequently computed digest. -/
theorem claim_C10 (H : Bytes → Bytes) (ov bl : Bytes) (pos : Nat) :
    DropboxContentHasher.update H ⟨some ov, some bl, pos⟩ []
      = .ok ⟨some ov, some bl, pos⟩ := rfl

theorem readBytes_append_readRest (n : Option Nat) (s : Bytes) :
    readBytes n s ++ readRest n s = s := by
  cases n with
  | some k => exact List.take_append_drop k s
  | none => simp [readBytes, readRest]

/-- A read through the adapter on an active canonical hasher state:
returns exactly what the stream returns and advances the hasher by those
bytes. -/
theorem read_ok (H : Bytes → Bytes) (c rem w : Bytes) (n : Option Nat) :
    StreamHasher.read H ⟨⟨rem, w, false, false⟩, feed H c⟩ n
      = (.ok (readBytes n rem),
         ⟨⟨readRest n rem, w, false, false⟩, feed H (c ++ readBytes n rem)⟩) := by
  cases n with
  | some k =>
    simp only [StreamHasher.read, ByteStream.read, Bool.false_eq_true, if_false,
      update_feed, readBytes, readRest]
  | none =>
    simp only [StreamHasher.read, ByteStream.read, Bool.false_eq_true, if_false,
      update_feed, readBytes, readRest]

theorem runReads_feed (H : Bytes → Bytes) :
    ∀ (ns : List (Option Nat)) (c rem w : Bytes),
    ∃ c2 rem2, c2 ++ rem2 = rem ∧
      StreamHasher.runReads H ⟨⟨rem, w, false, false⟩, feed H c⟩ ns
        = .ok ⟨⟨rem2, w, false, false⟩, feed H (c ++ c2)⟩ := by
  intro ns
  induction ns with
  | nil =>
    intro c rem w
    exact ⟨[], rem, rfl, by simp [StreamHasher.runReads]⟩
  | cons n rest ih =>
    intro c rem w
    obtain ⟨c3, rem2, hsplit, hrun⟩ := ih (c ++ readBytes n rem) (readRest n rem) w
    refine ⟨readBytes n rem ++ c3, rem2, ?_, ?_⟩
    · rw [List.append_assoc, hsplit, readBytes_append_readRest]
    · simp only [StreamHasher.runReads, read_ok H c rem w n]
      rw [hrun, List.append_assoc]

/-- Claim C5: reading all of a stream through a StreamHasher (any
sequence of read calls that exhausts the stream) leaves the hasher with
the same final digest as feeding the stream bytes directly to a fresh
hasher by one update call. -/
theorem claim_C5 (H : Bytes → Bytes) (s w : Bytes)
    (ns : List (Option Nat)) (sh2 : StreamHasher)
    (h1 : StreamHasher.runReads H
        ⟨⟨s, w, false, false⟩, DropboxContentHasher.init⟩ ns = .ok sh2)
    (h2 : sh2.f.contents = []) :
    digestValue H sh2.hasher = digestOfChunks H [s] := by
  obtain ⟨c2, rem2, hsplit, hrun⟩ := runReads_feed H ns [] s w
  rw [feed_nil, List.nil_append] at hrun
  rw [hrun] at h1
  obtain rfl : (⟨⟨rem2, w, false, false⟩, feed H c2⟩ : StreamHasher) = sh2 :=
    Except.ok.inj h1
  have hrem : rem2 = [] := h2
  subst hrem
  rw [List.append_nil] at hsplit
  subst hsplit
  rw [digestValue_feed H c2, digestOfChunks_eq H [c2]]
  simp

/-- Witness for claim C5 at a concrete stream and read sequence. -/
theorem claim_C5_witness :
    StreamHasher.runReads hashFn0
      ⟨⟨[1, 2, 3], [], false, false⟩, DropboxContentHasher.init⟩ [some 2, none]
      = .ok ⟨⟨[], [], false, false⟩, ⟨some [], some [1, 2, 3], 3⟩⟩
    ∧ (⟨⟨[], [], false, false⟩, ⟨some [], some [1, 2, 3], 3⟩⟩
        : StreamHasher).f.contents = []
    ∧ digestValue hashFn0
        (⟨⟨[], [], false, false⟩, ⟨some [], some [1, 2, 3], 3⟩⟩
          : StreamHasher).hasher
      = digestOfChunks hashFn0 [[1, 2, 3]] :=
  have h1 : StreamHasher.runReads hashFn0
      ⟨⟨[1, 2, 3], [], false, false⟩, DropboxContentHasher.init⟩ [some 2, none]
      = .ok ⟨⟨[], [], false, false⟩, ⟨some [], some [1, 2, 3], 3⟩⟩ := rfl
  have h2 : (⟨⟨[], [], false, false⟩, ⟨some [], some [1, 2, 3], 3⟩⟩
      : StreamHasher).f.contents = [] := rfl
  ⟨h1, h2, claim_C5 hashFn0 [1, 2, 3] [] [some 2, none] _ h1 h2⟩

/-- Counterexample to claim C6: on a wrapped stream whose write raises,
StreamHasher.write has already fed the data to the hasher when the
exception propagates: the hasher state is changed, contrary to the claim
that update is not called at all on a failing operation. -/
theorem claim_C6_counterexample :
    StreamHasher.write hashFn0
      ⟨⟨[], [], false, true⟩, DropboxContentHasher.init⟩ [7]
      = (.error ioErrMsg, ⟨⟨[], [], false, true⟩, ⟨some [], some [7], 1⟩⟩)
    ∧ (⟨some [], some [7], 1⟩ : DropboxContentHasher)
        ≠ DropboxContentHasher.init :=
  ⟨rfl, by decide⟩

/-- Claim C6 amended: for the byte-producing operations (read, readline,
readlines, next) a stream failure propagates unchanged and the hasher is
never updated; for write, the source updates the hasher BEFORE delegating
to the stream, so when the stream write raises, the exception still
propagates unchanged but the hasher has already absorbed the data. -/
theorem claim_C6_amended (H : Bytes → Bytes) (sh : StreamHasher) :
    (sh.f.failRead = true →
      (∀ n, sh.read H n = (.error ioErrMsg, sh))
      ∧ sh.readline H = (.error ioErrMsg, sh)
      ∧ sh.readlines H = (.error ioErrMsg, sh)
      ∧ sh.next H = (.error ioErrMsg, sh))
    ∧ (sh.f.failWrite = true →
      ∀ b h2, sh.hasher.update H b = .ok h2 →
        sh.write H b = (.error ioErrMsg, { sh with hasher := h2 })) := by
  constructor
  · intro hr
    refine ⟨fun n => ?_, ?_, ?_, ?_⟩ <;>
      simp [StreamHasher.read, StreamHasher.readline, StreamHasher.readlines,
        StreamHasher.next, ByteStream.read, ByteStream.readline,
        ByteStream.readlines, ByteStream.next, hr]
  · intro hw b h2 hup
    simp [StreamHasher.write, hup, ByteStream.write, hw]

/-- Witness for the amended claim C6 at a concrete failing stream. -/
theorem claim_C6_amended_witness :
    ((⟨⟨[9], [], true, true⟩, DropboxContentHasher.init⟩
        : StreamHasher).f.failRead = true
      ∧ StreamHasher.read hashFn0
          ⟨⟨[9], [], true, true⟩, DropboxContentHasher.init⟩ (some 1)
        = (.error ioErrMsg, ⟨⟨[9], [], true, true⟩, DropboxContentHasher.init⟩)
      ∧ StreamHasher.readlines hashFn0
          ⟨⟨[9], [], true, true⟩, DropboxContentHasher.init⟩
        = (.error ioErrMsg, ⟨⟨[9], [], true, true⟩, DropboxContentHasher.init⟩))
    ∧ (DropboxContentHasher.init.update hashFn0 [7] = .ok ⟨some [], some [7], 1⟩
      ∧ StreamHasher.write hashFn0
          ⟨⟨[9], [], true, true⟩, DropboxContentHasher.init⟩ [7]
        = (.error ioErrMsg, ⟨⟨[9], [], true, true⟩, ⟨some [], some [7], 1⟩⟩)) :=
  have hc := claim_C6_amended hashFn0
    ⟨⟨[9], [], true, true⟩, DropboxContentHasher.init⟩
  have hup : DropboxContentHasher.init.update hashFn0 [7]
      = .ok ⟨some [], some [7], 1⟩ := rfl
  ⟨⟨rfl, (hc.1 rfl).1 (some 1), (hc.1 rfl).2.2.1⟩,
   ⟨hup, hc.2 rfl [7] _ hup⟩⟩

/-- Claim C7 (evidence of the defect): read, readline and next return
exactly what the wrapped stream returned; but at a stream holding the two
lines 97 10 and 98 98 10, the wrapped stream readlines returns the full
two-element list of lines while StreamHasher.readlines returns only the
last line: the source returns the loop variable b instead of the list
bs. -/
theorem claim_C7 :
    (∀ (H : Bytes → Bytes) (sh : StreamHasher) (n : Option Nat)
        (b : Bytes) (f2 : ByteStream),
      sh.f.read n = .ok (b, f2) → (sh.read H n).1 = .ok b
        ∨ (∃ e, (sh.read H n).1 = .error e ∧ sh.hasher.update H b = .error e))
    ∧ ByteStream.readlines ⟨[97, 10, 98, 98, 10], [], false, false⟩
        = .ok ([[97, 10], [98, 98, 10]], ⟨[], [], false, false⟩)
    ∧ (StreamHasher.readlines hashFn0
        ⟨⟨[97, 10, 98, 98, 10], [], false, false⟩, DropboxContentHasher.init⟩)
      = (.ok [98, 98, 10],
         ⟨⟨[], [], false, false⟩, ⟨some [], some [97, 10, 98, 98, 10], 5⟩⟩)
    ∧ (StreamHasher.readlines hashFn0
        ⟨⟨[], [], false, false⟩, DropboxContentHasher.init⟩)
      = (.error unboundLocalMsg,
         ⟨⟨[], [], false, false⟩, DropboxContentHasher.init⟩) := by
  refine ⟨?_, rfl, rfl, rfl⟩
  intro H sh n b f2 hread
  have hstep : sh.read H n =
      (let sh1 := { sh with f := f2 }
       match sh1.hasher.update H b with
       | .error e => (.error e, sh1)
       | .ok h2 => (.ok b, { sh1 with hasher := h2 })) := by
    unfold StreamHasher.read
    rw [hread]
  rw [hstep]
  cases hup : sh.hasher.update H b with
  | ok h2 => exact Or.inl (by simp [hup])
  | error e => exact Or.inr ⟨e, by simp [hup], rfl⟩

/-- Witness for claim C7 at a concrete read. -/
theorem claim_C7_witness :
    ByteStream.read ⟨[5, 6], [], false, false⟩ (some 1)
      = .ok ([5], ⟨[6], [], false, false⟩)
    ∧ ((StreamHasher.read hashFn0
        ⟨⟨[5, 6], [], false, false⟩, DropboxContentHasher.init⟩ (some 1)).1
          = .ok [5]
      ∨ ∃ e, (StreamHasher.read hashFn0
          ⟨⟨[5, 6], [], false, false⟩, DropboxContentHasher.init⟩ (some 1)).1
            = .error e
          ∧ DropboxContentHasher.init.update hashFn0 [5] = .error e) :=
  have h1 : ByteStream.read ⟨[5, 6], [], false, false⟩ (some 1)
      = .ok ([5], ⟨[6], [], false, false⟩) := rfl
  ⟨h1, claim_C7.1 hashFn0
    ⟨⟨[5, 6], [], false, false⟩, DropboxContentHasher.init⟩ (some 1) [5]
    ⟨[6], [], false, false⟩ h1⟩

/-- Claim C9: when both the api_token argument and the DROPBOX_API_TOKEN
environment variable are missing or empty, create_shared_links (also as
called by create_pooch_registry) raises the configuration ValueError
before any network or hashing work (the result does not depend on the
network at all); when either source supplies a non-empty token, no such
error is raised. -/
theorem claim_C9 (a envv : Option String) (net net2 : String → List String) :
    (isFalsy a = true → isFalsy envv = true →
      create_shared_links_model a envv net = .error tokenErrMsg
      ∧ create_shared_links_model a envv net
          = create_shared_links_model a envv net2
      ∧ create_pooch_registry_model envv net = .error tokenErrMsg)
    ∧ ((isFalsy a = false ∨ isFalsy envv = false) →
      ∃ tok, resolveApiToken a envv = .ok tok
        ∧ create_shared_links_model a envv net = .ok (net tok)) := by
  constructor
  · intro h1 h2
    have hres : resolveApiToken a envv = .error tokenErrMsg := by
      unfold resolveApiToken
      simp [h1, h2]
    have hmain : create_shared_links_model a envv net = .error tokenErrMsg := by
      unfold create_shared_links_model
      rw [hres]
    have hmain2 : create_shared_links_model a envv net2 = .error tokenErrMsg := by
      unfold create_shared_links_model
      rw [hres]
    have hreg : create_pooch_registry_model envv net = .error tokenErrMsg := by
      unfold create_pooch_registry_model create_shared_links_model
      rw [show resolveApiToken none envv = .error tokenErrMsg by
        unfold resolveApiToken
        have hn : isFalsy none = true := rfl
        simp [hn, h2]]
    exact ⟨hmain, hmain.trans hmain2.symm, hreg⟩
  · intro h
    by_cases ha : isFalsy a = true
    · have henv : isFalsy envv = false := by
        rcases h with h | h
        · rw [ha] at h
          exact absurd h (by simp)
        · exact h
      refine ⟨envv.getD "", ?_, ?_⟩
      · unfold resolveApiToken
        simp [ha, henv]
      · unfold create_shared_links_model resolveApiToken
        simp [ha, henv]
    · have ha2 : isFalsy a = false := by
        cases hval : isFalsy a with
        | true => exact absurd hval ha
        | false => rfl
      refine ⟨a.getD "", ?_, ?_⟩
      · unfold resolveApiToken
        simp [ha2]
      · unfold create_shared_links_model resolveApiToken
        simp [ha2]

/-- Witness for claim C9: both sources missing raises the error
regardless of the network; a supplied token resolves. -/
theorem claim_C9_witness :
    (isFalsy none = true
      ∧ create_shared_links_model none none netFn0 = .error tokenErrMsg
      ∧ create_shared_links_model none none netFn0
          = create_shared_links_model none none netFn1
      ∧ create_pooch_registry_model none netFn0 = .error tokenErrMsg)
    ∧ (isFalsy (some "t") = false
      ∧ ∃ tok, resolveApiToken (some "t") none = .ok tok
          ∧ create_shared_links_model (some "t") none netFn0
            = .ok (netFn0 tok)) :=
  have h1 := (claim_C9 none none netFn0 netFn1).1 rfl rfl
  have h2 := (claim_C9 (some "t") none netFn0 netFn1).2 (Or.inl (by decide))
  ⟨⟨rfl, h1.1, h1.2.1, h1.2.2⟩, ⟨by decide, h2⟩⟩

end PoochDropbox
